import Mathlib

/-!
Shallow embedding of the ai-routine-builder repository (two source files:
`supabase/functions/generate/index.ts`, the serverless generation handler, and
`src/components/RoutineEditor.tsx`, the client editor component).

Conventions of the embedding:
* JS strings are modelled as Lean `String` / `List Char` (unicode scalar
  sequences; UTF-16 surrogate-pair details are out of scope of the claims).
* `JSON.parse` and `JSON.stringify` are platform builtins; they are modelled
  below by an executable fuel-based parser (`parseCore` / `parseJson`) and a
  serializer (`stringifyVal` / `prettyVal`) implementing the standard JSON
  grammar.  JSON numbers are modelled by their source lexeme (a `String`),
  not by floating-point values: none of the claims depends on float
  arithmetic, only on which candidate text is parsed and whether parsing
  succeeds.
* JS truthiness on strings (`if (image)`, `if (geminiApiKey)`, ...) is the
  test `s ≠ ""` with `undefined` mapped to `Option.none`.
-/

namespace ARB

/-- JSON whitespace accepted by `JSON.parse` between tokens: space, tab,
line feed, carriage return. -/
def jsonWs (c : Char) : Bool :=
  c = ' ' || c = '\t' || c = '\n' || c = '\r'

/-- The JS regex class `\s` (whitespace), as used by `\s*` in the extraction
regex and by `String.prototype.trim`: ASCII whitespace plus the common
unicode whitespace code points. -/
def jsWs (c : Char) : Bool :=
  c = ' ' || c = '\t' || c = '\n' || c = '\r' || c = '\x0b' || c = '\x0c' ||
  c = '\u00a0' || c = '\u1680' ||
  (0x2000 <= c.toNat && c.toNat <= 0x200a) ||
  c = '\u2028' || c = '\u2029' || c = '\u202f' || c = '\u205f' ||
  c = '\u3000' || c = '\ufeff'

/-- Drop leading JSON whitespace (token separation inside `JSON.parse`). -/
def skipWs (s : List Char) : List Char := s.dropWhile jsonWs

/-- Strip leading and trailing JS whitespace, as the `\s*` groups around the
lazy capture of the fenced-block regex do (and as `String.prototype.trim`
does). -/
def trimWs (l : List Char) : List Char :=
  ((l.dropWhile jsWs).reverse.dropWhile jsWs).reverse

/-- JSON values.  Numbers carry their source lexeme. -/
inductive Json where
  | null : Json
  | bool : Bool → Json
  | num : String → Json
  | str : String → Json
  | arr : List Json → Json
  | obj : List (String × Json) → Json

/-- Hex digit value, as used by `\uXXXX` escapes in `JSON.parse`. -/
def hexVal (c : Char) : Option Nat :=
  if '0' ≤ c && c ≤ '9' then some (c.toNat - 48)
  else if 'a' ≤ c && c ≤ 'f' then some (c.toNat - 97 + 10)
  else if 'A' ≤ c && c ≤ 'F' then some (c.toNat - 65 + 10)
  else none

/-- Single-character JSON string escapes (`\"`, `\\`, `\/`, `\b`, `\f`,
`\n`, `\r`, `\t`). -/
def escChar (c : Char) : Option Char :=
  if c = '"' then some '"'
  else if c = '\\' then some '\\'
  else if c = '/' then some '/'
  else if c = 'b' then some '\x08'
  else if c = 'f' then some '\x0c'
  else if c = 'n' then some '\n'
  else if c = 'r' then some '\r'
  else if c = 't' then some '\t'
  else none

/-- Body of a JSON string literal after the opening quote: returns the
decoded characters and the remainder after the closing quote.  Raw control
characters are rejected, exactly as in the JSON grammar. -/
def parseStringBody : List Char → Option (List Char × List Char)
  | [] => none
  | c :: rest =>
    if c = '"' then some ([], rest)
    else if c = '\\' then
      match rest with
      | [] => none
      | e :: rest2 =>
        if e = 'u' then
          match rest2 with
          | h1 :: h2 :: h3 :: h4 :: rest3 =>
            match hexVal h1, hexVal h2, hexVal h3, hexVal h4 with
            | some v1, some v2, some v3, some v4 =>
              match parseStringBody rest3 with
              | some (cs, r) =>
                some (Char.ofNat (((v1 * 16 + v2) * 16 + v3) * 16 + v4) :: cs, r)
              | none => none
            | _, _, _, _ => none
          | _ => none
        else
          match escChar e with
          | some d =>
            match parseStringBody rest2 with
            | some (cs, r) => some (d :: cs, r)
            | none => none
          | none => none
    else if c.toNat < 32 then none
    else
      match parseStringBody rest with
      | some (cs, r) => some (c :: cs, r)
      | none => none

/-- Characters that can occur inside a JSON number lexeme.  The number
scanner takes a maximal run of these and then validates it against the JSON
number grammar; this is observationally equivalent to the grammar-directed
scanner of `JSON.parse` (both fail on exactly the same inputs). -/
def numChar (c : Char) : Bool :=
  c.isDigit || c = '-' || c = '+' || c = '.' || c = 'e' || c = 'E'

/-- Consume one or more digits, returning the rest. -/
def digits1 : List Char → Option (List Char)
  | [] => none
  | c :: r => if c.isDigit then some (r.dropWhile Char.isDigit) else none

/-- Integer part of the JSON number grammar: `0 | [1-9][0-9]*`. -/
def numIntRest : List Char → Option (List Char)
  | [] => none
  | c :: r =>
    if c = '0' then some r
    else if c.isDigit then some (r.dropWhile Char.isDigit)
    else none

/-- Optional fraction part of the JSON number grammar: `('.' [0-9]+)?`. -/
def numFracRest : List Char → Option (List Char)
  | [] => some []
  | c :: r => if c = '.' then digits1 r else some (c :: r)

/-- Optional exponent part of the JSON number grammar:
`([eE] [+-]? [0-9]+)?`. -/
def numExpRest : List Char → Option (List Char)
  | [] => some []
  | c :: r =>
    if c = 'e' || c = 'E' then
      match r with
      | [] => none
      | s :: r2 => if s = '+' || s = '-' then digits1 r2 else digits1 (s :: r2)
    else some (c :: r)

/-- The JSON number grammar `-? (0 | [1-9][0-9]*) ('.' [0-9]+)?
([eE] [+-]? [0-9]+)?`, checked on a whole lexeme. -/
def validNum (l : List Char) : Bool :=
  match numIntRest (if l.head? = some '-' then l.tail else l) with
  | none => false
  | some r1 =>
    match numFracRest r1 with
    | none => false
    | some r2 =>
      match numExpRest r2 with
      | none => false
      | some r3 => r3.isEmpty

/-- Argument tag for the single fuel-based recursion implementing
`JSON.parse`: a value, the elements of an array (after `[`), or the
members of an object (after an opening brace). -/
inductive PMode where
  | val : PMode
  | elems : PMode
  | fields : PMode

/-- Result tag matching `PMode`. -/
inductive PRes where
  | val : Json → PRes
  | elems : List Json → PRes
  | fields : List (String × Json) → PRes

/-- Fuel-based recursive core of `JSON.parse`.  In `.val` mode it parses one
JSON value (after skipping whitespace); in `.elems` mode it parses the
non-empty element list of an array up to and including `]`; in `.fields`
mode the non-empty member list of an object up to and including the closing
brace. -/
def parseCore : Nat → PMode → List Char → Option (PRes × List Char)
  | 0, _, _ => none
  | fuel + 1, PMode.val, s =>
    match skipWs s with
    | [] => none
    | c :: r =>
      if c = '"' then
        match parseStringBody r with
        | some (cs, r1) => some (PRes.val (Json.str cs.asString), r1)
        | none => none
      else if c = '\x7b' then
        match skipWs r with
        | [] => none
        | c2 :: r2 =>
          if c2 = '\x7d' then some (PRes.val (Json.obj []), r2)
          else
            match parseCore fuel PMode.fields (c2 :: r2) with
            | some (PRes.fields fs, r3) => some (PRes.val (Json.obj fs), r3)
            | _ => none
      else if c = '[' then
        match skipWs r with
        | [] => none
        | c2 :: r2 =>
          if c2 = ']' then some (PRes.val (Json.arr []), r2)
          else
            match parseCore fuel PMode.elems (c2 :: r2) with
            | some (PRes.elems vs, r3) => some (PRes.val (Json.arr vs), r3)
            | _ => none
      else if c = 'n' then
        match r with
        | 'u' :: 'l' :: 'l' :: r2 => some (PRes.val Json.null, r2)
        | _ => none
      else if c = 't' then
        match r with
        | 'r' :: 'u' :: 'e' :: r2 => some (PRes.val (Json.bool true), r2)
        | _ => none
      else if c = 'f' then
        match r with
        | 'a' :: 'l' :: 's' :: 'e' :: r2 => some (PRes.val (Json.bool false), r2)
        | _ => none
      else
        let lex := (c :: r).takeWhile numChar
        if validNum lex then
          some (PRes.val (Json.num lex.asString), (c :: r).dropWhile numChar)
        else none
  | fuel + 1, PMode.elems, s =>
    match parseCore fuel PMode.val s with
    | some (PRes.val v, r) =>
      (match skipWs r with
      | [] => none
      | c :: r2 =>
        if c = ',' then
          match parseCore fuel PMode.elems r2 with
          | some (PRes.elems vs, r3) => some (PRes.elems (v :: vs), r3)
          | _ => none
        else if c = ']' then some (PRes.elems [v], r2)
        else none)
    | _ => none
  | fuel + 1, PMode.fields, s =>
    match skipWs s with
    | [] => none
    | c :: r =>
      if c = '"' then
        match parseStringBody r with
        | some (key, r1) =>
          (match skipWs r1 with
          | [] => none
          | c2 :: r2 =>
            if c2 = ':' then
              match parseCore fuel PMode.val r2 with
              | some (PRes.val v, r3) =>
                (match skipWs r3 with
                | [] => none
                | c3 :: r4 =>
                  if c3 = ',' then
                    match parseCore fuel PMode.fields r4 with
                    | some (PRes.fields fs, r5) =>
                      some (PRes.fields ((key.asString, v) :: fs), r5)
                    | _ => none
                  else if c3 = '\x7d' then
                    some (PRes.fields [(key.asString, v)], r4)
                  else none)
              | _ => none
            else none)
        | none => none
      else none

/-- Parse one JSON value with the given fuel, `.val`-mode wrapper. -/
def parseVal (fuel : Nat) (s : List Char) : Option (Json × List Char) :=
  match parseCore fuel PMode.val s with
  | some (PRes.val v, r) => some (v, r)
  | _ => none

/-- Model of `JSON.parse`: parse a complete JSON text (one value surrounded
by optional whitespace); `none` models the thrown `SyntaxError`.  The fuel
`2 * length + 2` dominates the recursion depth of any parse of the input
(each two fuel levels consume at least one character). -/
def parseJson (s : String) : Option Json :=
  match parseVal (2 * s.length + 2) s.toList with
  | some (v, r) => if (skipWs r).isEmpty then some v else none
  | none => none

/-- Lowercase hex digit, as emitted by `JSON.stringify` in `\u00xx`
escapes. -/
def hexDigit (n : Nat) : Char :=
  if n < 10 then Char.ofNat (48 + n) else Char.ofNat (97 + n - 10)

/-- Escaping of one character inside a `JSON.stringify` string literal:
quote and backslash get backslash escapes, the five named control
characters get their short escapes, other control characters get `\u00xx`,
everything else is emitted literally (`/` is not escaped). -/
def escapeChar (c : Char) : List Char :=
  if c = '"' then ['\\', '"']
  else if c = '\\' then ['\\', '\\']
  else if c = '\x08' then ['\\', 'b']
  else if c = '\t' then ['\\', 't']
  else if c = '\n' then ['\\', 'n']
  else if c = '\x0c' then ['\\', 'f']
  else if c = '\r' then ['\\', 'r']
  else if c.toNat < 32 then
    ['\\', 'u', '0', '0', hexDigit (c.toNat / 16), hexDigit (c.toNat % 16)]
  else [c]

/-- Escape a whole character sequence. -/
def escapeList : List Char → List Char
  | [] => []
  | c :: t => escapeChar c ++ escapeList t

/-- A `JSON.stringify` string literal, quotes included. -/
def strLit (s : String) : List Char :=
  '"' :: (escapeList s.toList ++ ['"'])

mutual

/-- `JSON.stringify(v)` (no indent argument): compact serialization, no
whitespace, object members in insertion order. -/
def stringifyVal : Json → List Char
  | Json.null => "null".toList
  | Json.bool true => "true".toList
  | Json.bool false => "false".toList
  | Json.num lex => lex.toList
  | Json.str s => strLit s
  | Json.arr [] => "[]".toList
  | Json.arr (x :: xs) => '[' :: (stringifyVal x ++ stringifyElems xs ++ [']'])
  | Json.obj [] => "\x7b\x7d".toList
  | Json.obj ((k, v) :: fs) =>
    '\x7b' :: (strLit k ++ ':' :: stringifyVal v ++ stringifyFields fs ++ ['\x7d'])

/-- Comma-separated continuation of a compact array. -/
def stringifyElems : List Json → List Char
  | [] => []
  | x :: xs => ',' :: (stringifyVal x ++ stringifyElems xs)

/-- Comma-separated continuation of a compact object. -/
def stringifyFields : List (String × Json) → List Char
  | [] => []
  | (k, v) :: fs => ',' :: (strLit k ++ ':' :: stringifyVal v ++ stringifyFields fs)

end

/-- `JSON.stringify(v)` as a `String`. -/
def stringifyCompact (j : Json) : String := (stringifyVal j).asString

/-- Indentation prefix at nesting depth `d` for a 2-space indent. -/
def indentChars (d : Nat) : List Char := List.replicate (2 * d) ' '

mutual

/-- `JSON.stringify(v, null, 2)`: pretty serialization with 2-space indent,
as used for the editable raw-text mirror in the client. -/
def prettyVal : Nat → Json → List Char
  | _, Json.null => "null".toList
  | _, Json.bool true => "true".toList
  | _, Json.bool false => "false".toList
  | _, Json.num lex => lex.toList
  | _, Json.str s => strLit s
  | _, Json.arr [] => "[]".toList
  | d, Json.arr (x :: xs) =>
    '[' :: '\n' :: (indentChars (d + 1) ++ prettyVal (d + 1) x ++
      prettyElems d xs ++ '\n' :: (indentChars d ++ [']']))
  | _, Json.obj [] => "\x7b\x7d".toList
  | d, Json.obj ((k, v) :: fs) =>
    '\x7b' :: '\n' :: (indentChars (d + 1) ++ strLit k ++ ':' :: ' ' ::
      prettyVal (d + 1) v ++ prettyFields d fs ++ '\n' :: (indentChars d ++ ['\x7d']))

/-- Pretty continuation of an array. -/
def prettyElems : Nat → List Json → List Char
  | _, [] => []
  | d, x :: xs =>
    ',' :: '\n' :: (indentChars (d + 1) ++ prettyVal (d + 1) x ++ prettyElems d xs)

/-- Pretty continuation of an object. -/
def prettyFields : Nat → List (String × Json) → List Char
  | _, [] => []
  | d, (k, v) :: fs =>
    ',' :: '\n' :: (indentChars (d + 1) ++ strLit k ++ ':' :: ' ' ::
      prettyVal (d + 1) v ++ prettyFields d fs)

end

/-- `JSON.stringify(v, null, 2)` as a `String`. -/
def stringifyPretty (j : Json) : String := (prettyVal 0 j).asString

/-! ## The extraction regexes of the handler

`index.ts` line 90-91:
```
const jsonMatch = generatedContent.match(/```json\s*([\s\S]*?)\s*```/) ||
                  generatedContent.match(/\x7b[\s\S]*\x7d/);
```
`findFenced` is the first regex: leftmost occurrence of ```` ```json ````
that is followed by a later ```` ``` ````; the lazy group ends at the
earliest such close, and the surrounding greedy `\s*` strip whitespace from
the capture.  It returns `(capture, full match)`, i.e. `jsonMatch[1]` and
`jsonMatch[0]`.  `braceMatch` is the second regex: being greedy, it matches
from the first opening brace that has some later closing brace up to the
**last** closing brace of the text. -/

/-- The literal `<backtick><backtick><backtick>json` that opens a fenced
block. -/
def fencedOpen : List Char := "```json".toList

/-- The literal closing fence. -/
def fencedClose : List Char := "```".toList

/-- Split a list at the first occurrence of `pat`, returning the part
before and the part after the occurrence. -/
def splitAtSeq (pat : List Char) : List Char → Option (List Char × List Char)
  | [] => if pat.isEmpty then some ([], []) else none
  | c :: t =>
    if pat.isPrefixOf (c :: t) then some ([], (c :: t).drop pat.length)
    else
      match splitAtSeq pat t with
      | some (b, a) => some (c :: b, a)
      | none => none

/-- Leftmost match of ``/```json\s*([\s\S]*?)\s*```/``; returns
`(capture, full match)` when it matches. -/
def findFenced : List Char → Option (List Char × List Char)
  | [] => none
  | c :: t =>
    if fencedOpen.isPrefixOf (c :: t) then
      match splitAtSeq fencedClose ((c :: t).drop fencedOpen.length) with
      | some (mid, _) => some (trimWs mid, fencedOpen ++ (mid ++ fencedClose))
      | none => findFenced t
    else findFenced t

/-- Truncate a list just after its last closing brace (callers guarantee
one exists). -/
def truncAtLastClose (t : List Char) : List Char :=
  (t.reverse.dropWhile (fun c => c != '\x7d')).reverse

/-- Leftmost match of the greedy `/\x7b[\s\S]*\x7d/`: from the first opening
brace that has a later closing brace, through the last closing brace of the
text. -/
def braceMatch : List Char → Option (List Char)
  | [] => none
  | c :: t =>
    if c = '\x7b' then
      if t.contains '\x7d' then some (c :: truncAtLastClose t) else braceMatch t
    else braceMatch t

/-- The candidate string the handler hands to `JSON.parse`: the fenced
capture if the first regex matched (falling back to the full match when the
capture is the empty string, since `jsonMatch[1] || jsonMatch[0]` treats
`""` as falsy), else the greedy brace span, else the whole response text. -/
def extractCandidate (text : String) : String :=
  match findFenced text.toList with
  | some (cap, full) => if cap.isEmpty then full.asString else cap.asString
  | none =>
    match braceMatch text.toList with
    | some m => m.asString
    | none => text

/-! ## The request handler (`supabase/functions/generate/index.ts`) -/

/-- JS truthiness of an optional string (`undefined` and `""` are falsy). -/
def strTruthy : Option String → Bool
  | none => false
  | some s => !s.isEmpty

/-- The fixed system instruction sent as the first chat message. -/
def systemPrompt : String :=
  "You are an expert routine designer and wellness coach. Create comprehensive, practical routines based on user requests. Always respond with a valid JSON object in this exact format:\n\n\x7b\n  \"title\": \"A compelling title for the routine\",\n  \"description\": \"A brief description of what this routine achieves\",\n  \"steps\": [\n    \x7b\n      \"step\": 1,\n      \"action\": \"Specific action to take\",\n      \"duration\": \"Time estimate (optional)\",\n      \"notes\": \"Additional tips or context (optional)\"\n    \x7d\n  ]\n\x7d\n\nMake routines practical, achievable, and tailored to the user\x27s needs. Include realistic time estimates and helpful tips."

/-- The fixed note appended to the user message when an image was supplied
(the only use the handler makes of the image). -/
def imageNote : String :=
  "\n\nNote: Image context has been provided for additional guidance."

/-- The user message sent to the provider: the prompt embedded in a fixed
template (a variant mentioning the image when one is supplied), plus the
appended image-context note when the image is truthy.  No image bytes are
ever forwarded. -/
def userMessage (prompt : String) (image : Option String) : String :=
  let base :=
    if strTruthy image then
      "Create a routine based on this description: \"" ++ prompt ++
        "\". I\x27ve also included an image for additional context."
    else
      "Create a routine based on this description: \"" ++ prompt ++ "\""
  if strTruthy image then base ++ imageNote else base

/-- The outbound two-message exchange `[system, user]` (role, content). -/
def outboundMessages (prompt : String) (image : Option String) :
    List (String × String) :=
  [("system", systemPrompt), ("user", userMessage prompt image)]

/-- The fixed fallback routine substituted when JSON extraction or parsing
of the provider text fails. -/
def fallbackRoutine : Json :=
  Json.obj [
    ("title", Json.str "Custom Routine"),
    ("description", Json.str "A personalized routine based on your request"),
    ("steps", Json.arr [Json.obj [
      ("step", Json.num "1"),
      ("action", Json.str "Start with the basics outlined in your request"),
      ("duration", Json.str "Variable"),
      ("notes", Json.str "Generated content could not be parsed properly")]])]

/-- The `routineData` computed from the provider text: parse the extracted
candidate, and on any parse failure substitute the fixed fallback (the
`try`/`catch` around the extraction block). -/
def routineData (text : String) : Json :=
  (parseJson (extractCandidate text)).getD fallbackRoutine

/-- The provider response as seen by the handler: `ok`/`status`/`statusText`
of the HTTP response and `choices[0]?.message?.content` (absent fields
collapse to `none`). -/
structure UpstreamResponse where
  ok : Bool
  status : Nat
  statusText : String
  content : Option String

/-- Outcome of the outbound `fetch`: a transport failure (the rejected
promise's message) or a response. -/
inductive FetchResult where
  | netError : String → FetchResult
  | response : UpstreamResponse → FetchResult

/-- The handler's HTTP response: status plus JSON body. -/
structure HttpResponse where
  status : Nat
  body : Json

/-- The 500 error payload produced by the outer `catch`:
`\x7b error: 'Failed to generate routine', message \x7d`. -/
def err500 (msg : String) : HttpResponse :=
  { status := 500,
    body := Json.obj [("error", Json.str "Failed to generate routine"),
                      ("message", Json.str msg)] }

/-- The request handler, parameterized by the configured credential and the
outcome of the single outbound call.  Thrown errors (missing key, failed
fetch, non-ok status, missing content) all reach the outer `catch` and
become a 500 with the error's message; a parse failure of the model text
does not throw and yields a 200 with the fallback routine. -/
def handler (apiKey : Option String) (prompt : String) (image : Option String)
    (fetched : FetchResult) : HttpResponse :=
  if !strTruthy apiKey then err500 "GEMINI_API_KEY is not configured"
  else
    match fetched with
    | FetchResult.netError msg => err500 msg
    | FetchResult.response resp =>
      if !resp.ok then
        err500 ("Gemini API request failed: " ++ toString resp.status ++ " " ++
          resp.statusText)
      else
        match resp.content with
        | none => err500 "No content generated from Gemini API"
        | some text =>
          if text.isEmpty then err500 "No content generated from Gemini API"
          else { status := 200, body := Json.obj [("routine", routineData text)] }

/-! ## The Routine data model (spec §3, `GeneratedRoutine` in
`RoutineEditor.tsx`) -/

/-- Decimal numeral printer (fuel-based so it reduces in the kernel; the
fuel `n + 1` always suffices since `n / 10 < n`). -/
def natLexCore : Nat → Nat → List Char
  | 0, _ => []
  | fuel + 1, n =>
    if n < 10 then [Char.ofNat (48 + n)]
    else natLexCore fuel (n / 10) ++ [Char.ofNat (48 + n % 10)]

/-- Decimal numeral of a natural number, as `JSON.stringify` renders a
non-negative integer. -/
def natLexeme (n : Nat) : List Char := natLexCore (n + 1) n

/-- One step of a Routine: 1-based position, required action, optional
duration and notes. -/
structure RStep where
  step : Nat
  action : String
  duration : Option String
  notes : Option String

/-- The JSON object for a step; optional fields are present only when
supplied (an absent optional field is simply a missing member). -/
def RStep.toJson (s : RStep) : Json :=
  Json.obj ([("step", Json.num (natLexeme s.step).asString),
             ("action", Json.str s.action)] ++
    (match s.duration with
     | some d => [("duration", Json.str d)]
     | none => []) ++
    (match s.notes with
     | some n => [("notes", Json.str n)]
     | none => []))

/-- A Routine: title, description, ordered steps. -/
structure Routine where
  title : String
  description : String
  steps : List RStep

/-- The JSON object for a Routine. -/
def Routine.toJson (r : Routine) : Json :=
  Json.obj [("title", Json.str r.title),
            ("description", Json.str r.description),
            ("steps", Json.arr (r.steps.map RStep.toJson))]

/-- Look up a key in a JSON object member list (first occurrence). -/
def jget : List (String × Json) → String → Option Json
  | [], _ => none
  | (k, v) :: t, key => if k = key then some v else jget t key

/-- Conformance of a JSON value to the Step shape of the data model: an
object with a numeric `step`, a string `action`, and optional string
`duration` / `notes`. -/
def isStepJson : Json → Bool
  | Json.obj fs =>
    (match jget fs "step" with
     | some (Json.num _) => true
     | _ => false) &&
    (match jget fs "action" with
     | some (Json.str _) => true
     | _ => false) &&
    (match jget fs "duration" with
     | none => true
     | some (Json.str _) => true
     | _ => false) &&
    (match jget fs "notes" with
     | none => true
     | some (Json.str _) => true
     | _ => false)
  | _ => false

/-- Conformance of a JSON value to the Routine shape of the data model: an
object carrying a string `title`, a string `description`, and a `steps`
array whose members all conform to the Step shape. -/
def isRoutineJson : Json → Bool
  | Json.obj fs =>
    (match jget fs "title" with
     | some (Json.str _) => true
     | _ => false) &&
    (match jget fs "description" with
     | some (Json.str _) => true
     | _ => false) &&
    (match jget fs "steps" with
     | some (Json.arr steps) => steps.all isStepJson
     | _ => false)
  | _ => false

/-! ## The client editor (`src/components/RoutineEditor.tsx`) -/

/-- A user-visible toast notification (title, description, destructive
variant flag). -/
structure Toast where
  title : String
  description : String
  destructive : Bool

/-- An image file held in memory: name, byte size, abstract content. -/
structure ImgFile where
  name : String
  size : Nat
  content : String

/-- The component state of `RoutineEditor`: the six `useState` hooks plus
the list of toasts surfaced so far (most recent first). -/
structure EditorState where
  userInput : String
  imageFile : Option ImgFile
  generatedRoutine : Option Json
  editableRoutine : String
  isGenerating : Bool
  isEditing : Bool
  toasts : List Toast

/-- Toast shown when Generate is pressed with blank input. -/
def inputRequiredToast : Toast :=
  ⟨"Input required", "Please describe what kind of routine you want to create.", true⟩

/-- Toast shown when the generation request fails. -/
def genFailedToast : Toast :=
  ⟨"Generation failed", "Unable to generate routine. Please try again.", true⟩

/-- Toast shown when the generation request succeeds. -/
def generatedToast : Toast :=
  ⟨"Routine generated!", "Your AI-powered routine has been created successfully.", false⟩

/-- Toast shown on a successful save. -/
def savedToast : Toast :=
  ⟨"Routine saved!", "Your routine has been saved to local storage.", false⟩

/-- Toast shown when saving with invalid edited JSON. -/
def saveFailedToast : Toast :=
  ⟨"Save failed", "Invalid JSON format. Please check your edits.", true⟩

/-- Toast shown when leaving edit mode with invalid edited JSON. -/
def invalidFormatToast : Toast :=
  ⟨"Invalid format", "Please check your JSON format before saving.", true⟩

/-- Toast shown when an oversized image is rejected. -/
def fileTooLargeToast : Toast :=
  ⟨"File too large", "Please select an image smaller than 5MB.", true⟩

/-- Toast shown when an image is accepted. -/
def imageUploadedToast (name : String) : Toast :=
  ⟨"Image uploaded", "Selected: " ++ name, false⟩

/-- `handleImageUpload`: reject (toast, no state change) files above
`5 * 1024 * 1024` bytes, otherwise hold the file and toast. -/
def handleImageUpload (file : Option ImgFile) (st : EditorState) : EditorState :=
  match file with
  | none => st
  | some f =>
    if f.size > 5 * 1024 * 1024 then
      { st with toasts := fileTooLargeToast :: st.toasts }
    else
      { st with imageFile := some f, toasts := imageUploadedToast f.name :: st.toasts }

/-- `String.prototype.trim()` produces the empty string (the
`!userInput.trim()` guard of `generateRoutine`). -/
def jsTrimEmpty (s : String) : Bool := (trimWs s.toList).isEmpty

/-- The body of the `POST /api/generate` request. -/
structure GenPayload where
  prompt : String
  image : String

/-- The payload `generateRoutine` sends, `none` when the empty-input guard
aborts before any request: `prompt` is the raw input, `image` is the
base64 data URI of the selected file, or `""` when none was selected
(`let imageBase64 = ""`).  `encode` models `convertImageToBase64`. -/
def generatePayload (st : EditorState) (encode : ImgFile → String) :
    Option GenPayload :=
  if jsTrimEmpty st.userInput then none
  else
    some { prompt := st.userInput,
           image := match st.imageFile with
                    | some f => encode f
                    | none => "" }

/-- Outcome of the generation fetch as observed by the client: `fail`
covers a rejected fetch, a non-ok response (the explicit `throw`), and a
body-parse failure — all reach the same `catch`; `success` carries
`data.routine` from the parsed body. -/
inductive GenOutcome where
  | fail : GenOutcome
  | success : Json → GenOutcome

/-- `generateRoutine`: abort with a toast on blank input (no request, no
other state change); otherwise set `isGenerating`, perform the request,
on success replace the routine and its pretty-printed editable mirror and
toast success, on failure toast failure leaving the routine untouched;
the `finally` clears `isGenerating` in both cases. -/
def generateRoutine (st : EditorState) (outcome : GenOutcome) : EditorState :=
  if jsTrimEmpty st.userInput then
    { st with toasts := inputRequiredToast :: st.toasts }
  else
    match outcome with
    | GenOutcome.success r =>
      { st with isGenerating := false,
                generatedRoutine := some r,
                editableRoutine := stringifyPretty r,
                toasts := generatedToast :: st.toasts }
    | GenOutcome.fail =>
      { st with isGenerating := false,
                toasts := genFailedToast :: st.toasts }

/-- `saveRoutine`: serialize the displayed routine (parsed from the raw
text when in edit mode) into the storage slot; on a parse failure abort
with a toast, leaving state and storage untouched.  Returns the new state
and the value written to `localStorage["aiRoutine"]` (`none` = no write). -/
def saveRoutine (st : EditorState) : EditorState × Option String :=
  if st.isEditing then
    match parseJson st.editableRoutine with
    | some p =>
      ({ st with generatedRoutine := some p, isEditing := false,
                 toasts := savedToast :: st.toasts },
       some (stringifyCompact p))
    | none => ({ st with toasts := saveFailedToast :: st.toasts }, none)
  else
    ({ st with isEditing := false, toasts := savedToast :: st.toasts },
     some (stringifyCompact (st.generatedRoutine.getD Json.null)))

/-- `handleEditToggle`: leaving edit mode parses the edited text, reverting
with a toast (still editing, routine unchanged) on failure; entering edit
mode always succeeds. -/
def handleEditToggle (st : EditorState) : EditorState :=
  if st.isEditing then
    match parseJson st.editableRoutine with
    | some p => { st with generatedRoutine := some p, isEditing := false }
    | none => { st with toasts := invalidFormatToast :: st.toasts }
  else { st with isEditing := true }

/-- The `useEffect` mount hook: read `localStorage["aiRoutine"]` once; when
present (truthy) and parseable, populate the structured view and the
pretty-printed raw mirror; on a parse failure only log. -/
def loadOnMount (stored : Option String) (st : EditorState) : EditorState :=
  match stored with
  | none => st
  | some s =>
    if s.isEmpty then st
    else
      match parseJson s with
      | some p =>
        { st with generatedRoutine := some p,
                  editableRoutine := stringifyPretty p }
      | none => st

/-- The member-list body of a serialized object (everything between the
braces), split out for the round-trip induction. -/
def fieldsBody : List (String × Json) → List Char
  | [] => []
  | (k, v) :: fs => strLit k ++ ':' :: stringifyVal v ++ stringifyFields fs

/-- The element-list body of a serialized array (everything between the
brackets). -/
def elemsBody : List Json → List Char
  | [] => []
  | x :: xs => stringifyVal x ++ stringifyElems xs

/-- A JSON value round-trips: with fuel at least the length of its
serialization and a remainder that cannot extend a number lexeme, the
parser consumes exactly the serialization and returns the value. -/
def ParsesFrom (v : Json) : Prop :=
  ∀ (fuel : Nat) (rest : List Char), (stringifyVal v).length ≤ fuel →
    (rest = [] ∨ ∃ c t, rest = c :: t ∧ numChar c = false) →
    parseCore fuel PMode.val (stringifyVal v ++ rest) =
      some (PRes.val v, rest)

/-! ## Helper lemmas -/

/-- Splitting `takeWhile`/`dropWhile` over an append whose left part wholly
satisfies the predicate and whose right part is empty or starts with a
failing element. -/
theorem takeDrop_append_all {p : Char → Bool} :
    ∀ (l r : List Char), (∀ c ∈ l, p c = true) →
    (r = [] ∨ ∃ c t, r = c :: t ∧ p c = false) →
    (l ++ r).takeWhile p = l ∧ (l ++ r).dropWhile p = r := by
  intro l
  induction l with
  | nil =>
    intro r _ hr
    rcases hr with rfl | ⟨c, t, rfl, hc⟩
    · exact ⟨rfl, rfl⟩
    · simp [List.takeWhile_cons, List.dropWhile_cons, hc]
  | cons a l ih =>
    intro r hl hr
    have ha : p a = true := hl a (List.mem_cons_self a l)
    have := ih r (fun c hc => hl c (List.mem_cons_of_mem a hc)) hr
    simp [List.takeWhile_cons, List.dropWhile_cons, ha, this.1, this.2]

/-- A list is not a suffix of another when their last elements differ. -/
theorem not_suffix_of_getLast_ne {l₁ l₂ : List Char} (h₁ : l₁ ≠ [])
    (h : l₁.getLast? ≠ l₂.getLast?) : ¬ l₁ <:+ l₂ := by
  rintro ⟨t, rfl⟩
  exact h (List.getLast?_append_of_ne_nil t h₁).symm

/-! ## Claim C9 -/

/-- Claim C9: the outbound user message embeds the prompt in the fixed
template.  With no image the message is the plain template and never ends
with the image-context note; with a (truthy) image supplied, the fixed note
string is appended verbatim, and the message does not depend on the image
bytes, so no binary image data is forwarded in either case. -/
theorem claim9_user_message (p : String) :
    userMessage p none =
      "Create a routine based on this description: \"" ++ p ++ "\"" ∧
    ¬ imageNote.toList <:+ (userMessage p none).toList ∧
    (∀ img : String, img.isEmpty = false →
      userMessage p (some img) =
        "Create a routine based on this description: \"" ++ p ++
          "\". I\x27ve also included an image for additional context." ++
          imageNote) ∧
    (∀ i1 i2 : String, i1.isEmpty = false → i2.isEmpty = false →
      userMessage p (some i1) = userMessage p (some i2)) := by
  have hnone : userMessage p none =
      "Create a routine based on this description: \"" ++ p ++ "\"" := by
    simp [userMessage, strTruthy]
  refine ⟨hnone, ?_, ?_, ?_⟩
  · apply not_suffix_of_getLast_ne (by decide)
    have h2 : (userMessage p none).toList.getLast? = some '"' := by
      rw [hnone]
      show (("Create a routine based on this description: \"" ++ p ++
        "\"").data).getLast? = _
      rw [String.data_append]
      exact List.getLast?_append_of_ne_nil _ (by decide)
    rw [h2]
    decide
  · intro img himg
    simp [userMessage, strTruthy, himg]
  · intro i1 i2 h1 h2
    simp [userMessage, strTruthy, h1, h2]

/-- Witness for C9 at a concrete prompt and image. -/
theorem claim9_witness :
    userMessage "go" none =
      "Create a routine based on this description: \"" ++ "go" ++ "\"" ∧
    ("img" : String).isEmpty = false ∧
    userMessage "go" (some "img") =
      "Create a routine based on this description: \"" ++ "go" ++
        "\". I\x27ve also included an image for additional context." ++
        imageNote :=
  ⟨(claim9_user_message "go").1, rfl,
   (claim9_user_message "go").2.2.1 "img" rfl⟩

/-! ## Claim C10 -/

/-- Claim C10: a request whose image field is the empty string — exactly
what the client sends when no file was selected — is handled as if the
image were absent: the outbound user message is the no-image template with
no note appended. -/
theorem claim10_empty_image (p : String) :
    userMessage p (some "") = userMessage p none ∧
    (∀ (st : EditorState) (encode : ImgFile → String),
      st.imageFile = none → jsTrimEmpty st.userInput = false →
      generatePayload st encode =
        some { prompt := st.userInput, image := "" }) := by
  constructor
  · have h : ("" : String).isEmpty = true := rfl
    simp [userMessage, strTruthy, h]
  · intro st encode hf hi
    simp [generatePayload, hi, hf]

/-- Witness for C10 at a concrete prompt and client state. -/
theorem claim10_witness :
    userMessage "go" (some "") = userMessage "go" none ∧
    (⟨"go", none, none, "", false, false, []⟩ : EditorState).imageFile = none ∧
    jsTrimEmpty ("go" : String) = false ∧
    generatePayload ⟨"go", none, none, "", false, false, []⟩ (fun _ => "enc") =
      some { prompt := "go", image := "" } :=
  ⟨(claim10_empty_image "go").1, rfl, rfl,
   (claim10_empty_image "go").2 ⟨"go", none, none, "", false, false, []⟩
     (fun _ => "enc") rfl rfl⟩

/-! ## Claim C4 -/

/-- Claim C4: every hard failure — absent credential, transport failure of
the upstream call, non-success upstream status, or missing response
content — yields an HTTP 500 whose body is the error payload
`(error, message)` carrying the underlying failure detail; none of these
cases returns a routine body of any kind (so never the fallback Routine),
and the handler is a function of the single fetch outcome, so no retry
occurs. -/
theorem claim4_hard_failures (apiKey : Option String) (p : String)
    (img : Option String) :
    (strTruthy apiKey = false → ∀ fetched,
      handler apiKey p img fetched = err500 "GEMINI_API_KEY is not configured") ∧
    (strTruthy apiKey = true → ∀ msg,
      handler apiKey p img (FetchResult.netError msg) = err500 msg) ∧
    (strTruthy apiKey = true → ∀ resp : UpstreamResponse, resp.ok = false →
      handler apiKey p img (FetchResult.response resp) =
        err500 ("Gemini API request failed: " ++ toString resp.status ++ " " ++
          resp.statusText)) ∧
    (strTruthy apiKey = true → ∀ resp : UpstreamResponse, resp.ok = true →
      strTruthy resp.content = false →
      handler apiKey p img (FetchResult.response resp) =
        err500 "No content generated from Gemini API") ∧
    (∀ msg, (err500 msg).status = 500 ∧
      ∀ j : Json, (err500 msg).body ≠ Json.obj [("routine", j)]) := by
  refine ⟨?_, ?_, ?_, ?_, ?_⟩
  · intro h fetched
    simp [handler, h]
  · intro h msg
    simp [handler, h]
  · intro h resp hok
    simp [handler, h, hok]
  · intro h resp hok hc
    match hcontent : resp.content with
    | none => simp [handler, h, hok, hcontent]
    | some t =>
      have ht : t.isEmpty = true := by
        simpa [strTruthy, hcontent] using hc
      simp [handler, h, hok, hcontent, ht]
  · intro msg
    refine ⟨rfl, ?_⟩
    intro j h
    simp [err500] at h

/-- Witness for C4 at a concrete failing configuration. -/
theorem claim4_witness :
    strTruthy none = false ∧
    handler none "p" none (FetchResult.netError "boom") =
      err500 "GEMINI_API_KEY is not configured" ∧
    (err500 "GEMINI_API_KEY is not configured").status = 500 :=
  ⟨rfl, (claim4_hard_failures none "p" none).1 rfl _,
   ((claim4_hard_failures none "p" none).2.2.2.2 _).1⟩

/-! ## Claim C7 -/

/-- Claim C7: toggling out of raw-JSON edit mode with syntactically invalid
edited text leaves the displayed routine unchanged, keeps the editor in
edit mode, and surfaces the invalid-format toast; nothing else changes. -/
theorem claim7_invalid_toggle (st : EditorState)
    (he : st.isEditing = true) (hp : parseJson st.editableRoutine = none) :
    handleEditToggle st = { st with toasts := invalidFormatToast :: st.toasts } ∧
    (handleEditToggle st).generatedRoutine = st.generatedRoutine ∧
    (handleEditToggle st).isEditing = true := by
  have h1 : handleEditToggle st =
      { st with toasts := invalidFormatToast :: st.toasts } := by
    simp [handleEditToggle, he, hp]
  refine ⟨h1, ?_, ?_⟩ <;> rw [h1]
  exact he

/-- Witness for C7 at a concrete editing state with malformed JSON. -/
theorem claim7_witness :
    (⟨"", none, some (Json.num "1"), "\x7bbad", false, true, []⟩ :
        EditorState).isEditing = true ∧
    parseJson "\x7bbad" = none ∧
    (handleEditToggle
        ⟨"", none, some (Json.num "1"), "\x7bbad", false, true, []⟩).isEditing =
      true :=
  ⟨rfl, rfl,
   (claim7_invalid_toggle ⟨"", none, some (Json.num "1"), "\x7bbad", false, true, []⟩
     rfl rfl).2.2⟩

/-! ## Claim C8 -/

/-- Claim C8: Generate with blank (whitespace-only) input surfaces the
input-required toast and aborts without sending any request and without any
other state change; with non-blank input, a failed request retains the
prior routine and its raw-text mirror and surfaces the failure toast; and
whatever the outcome the state ends non-generating. -/
theorem claim8_generate (st : EditorState) (encode : ImgFile → String) :
    (jsTrimEmpty st.userInput = true →
      (∀ outcome, generateRoutine st outcome =
        { st with toasts := inputRequiredToast :: st.toasts }) ∧
      generatePayload st encode = none) ∧
    (jsTrimEmpty st.userInput = false →
      (generateRoutine st GenOutcome.fail).generatedRoutine =
        st.generatedRoutine ∧
      (generateRoutine st GenOutcome.fail).editableRoutine =
        st.editableRoutine ∧
      (generateRoutine st GenOutcome.fail).toasts =
        genFailedToast :: st.toasts ∧
      ∀ outcome, (generateRoutine st outcome).isGenerating = false) := by
  constructor
  · intro h
    exact ⟨fun outcome => by simp [generateRoutine, h],
           by simp [generatePayload, h]⟩
  · intro h
    refine ⟨by simp [generateRoutine, h], by simp [generateRoutine, h],
            by simp [generateRoutine, h], ?_⟩
    intro outcome
    cases outcome <;> simp [generateRoutine, h]

/-- Witness for C8: a blank-input state aborts with no payload, and a
non-blank-input state survives a failed request with its routine intact. -/
theorem claim8_witness :
    jsTrimEmpty ("  " : String) = true ∧
    generatePayload ⟨"  ", none, some (Json.num "7"), "7", false, false, []⟩
      (fun _ => "") = none ∧
    jsTrimEmpty ("go" : String) = false ∧
    (generateRoutine ⟨"go", none, some (Json.num "7"), "7", false, false, []⟩
      GenOutcome.fail).generatedRoutine = some (Json.num "7") ∧
    (generateRoutine ⟨"go", none, some (Json.num "7"), "7", false, false, []⟩
      GenOutcome.fail).isGenerating = false :=
  ⟨rfl,
   ((claim8_generate ⟨"  ", none, some (Json.num "7"), "7", false, false, []⟩
      (fun _ => "")).1 rfl).2,
   rfl,
   ((claim8_generate ⟨"go", none, some (Json.num "7"), "7", false, false, []⟩
      (fun _ => "")).2 rfl).1,
   ((claim8_generate ⟨"go", none, some (Json.num "7"), "7", false, false, []⟩
      (fun _ => "")).2 rfl).2.2.2 GenOutcome.fail⟩

/-! ## Claim C2 -/

/-- A text starting with a backtick is never valid JSON (first relevant for
the full fenced match, which `jsonMatch[1] || jsonMatch[0]` falls back to
when the capture is empty). -/
theorem parseVal_backtick (fuel : Nat) (t : List Char) :
    parseVal fuel ('\x60' :: t) = none := by
  cases fuel with
  | zero => rfl
  | succ n =>
    have hws : jsonWs '\x60' = false := rfl
    simp [parseVal, parseCore, skipWs, List.dropWhile_cons, hws, numChar,
      validNum, List.takeWhile_cons, numIntRest]

/-- `parseJson` on a backtick-headed text fails. -/
theorem parseJson_backtick_head (t : List Char) :
    parseJson (('\x60' :: t).asString) = none := by
  unfold parseJson
  rw [show (('\x60' :: t).asString).toList = '\x60' :: t from rfl]
  rw [parseVal_backtick]

/-- A successful fenced match has the shape `open ++ mid ++ close`. -/
theorem findFenced_shape : ∀ (l cap full : List Char),
    findFenced l = some (cap, full) →
    ∃ mid, full = fencedOpen ++ (mid ++ fencedClose) := by
  intro l
  induction l with
  | nil => intro cap full h; simp [findFenced] at h
  | cons c t ih =>
    intro cap full h
    rw [findFenced] at h
    by_cases hp : fencedOpen.isPrefixOf (c :: t) = true
    · rw [if_pos hp] at h
      match hs : splitAtSeq fencedClose ((c :: t).drop fencedOpen.length) with
      | some (mid, rest) =>
        rw [hs] at h
        exact ⟨mid, by injection h with h1; injection h1 with _ h2; exact h2.symm⟩
      | none =>
        rw [hs] at h
        exact ih cap full h
    · rw [if_neg hp] at h
      exact ih cap full h

/-- Claim C2: when the response text contains a fenced block labeled json,
the routine the handler produces is a function of that first block's
capture alone — it parses the block content and ignores all surrounding
text, including any brace-delimited spans outside the block (the brace
scan is never consulted). -/
theorem claim2_fenced_block (text : String) (cap full : List Char)
    (h : findFenced text.toList = some (cap, full)) :
    routineData text = (parseJson cap.asString).getD fallbackRoutine := by
  have hec : extractCandidate text =
      if cap.isEmpty then full.asString else cap.asString := by
    unfold extractCandidate
    rw [h]
  unfold routineData
  rw [hec]
  by_cases hc : cap.isEmpty
  · rw [if_pos hc]
    obtain ⟨mid, rfl⟩ := findFenced_shape _ _ _ h
    have h1 : fencedOpen ++ (mid ++ fencedClose) =
        '\x60' :: ("\x60\x60json".toList ++ (mid ++ fencedClose)) := rfl
    rw [h1, parseJson_backtick_head]
    have h2 : cap = [] := by simpa using hc
    rw [h2]
    rfl
  · rw [if_neg hc]

/-- Witness for C2: a text carrying brace spans on both sides of a fenced
json block still parses exactly the block content. -/
theorem claim2_witness :
    findFenced ("pre \x7b\"x\":1\x7d mid ```json\n\x7b\"title\":\"T\"\x7d\n``` post \x7b\"y\":2\x7d" : String).toList =
      some (("\x7b\"title\":\"T\"\x7d" : String).toList,
            ("```json\n\x7b\"title\":\"T\"\x7d\n```" : String).toList) ∧
    routineData "pre \x7b\"x\":1\x7d mid ```json\n\x7b\"title\":\"T\"\x7d\n``` post \x7b\"y\":2\x7d" =
      (parseJson (("\x7b\"title\":\"T\"\x7d" : String).toList.asString)).getD fallbackRoutine ∧
    parseJson (("\x7b\"title\":\"T\"\x7d" : String).toList.asString) =
      some (Json.obj [("title", Json.str "T")]) :=
  ⟨rfl,
   claim2_fenced_block "pre \x7b\"x\":1\x7d mid ```json\n\x7b\"title\":\"T\"\x7d\n``` post \x7b\"y\":2\x7d"
     ("\x7b\"title\":\"T\"\x7d" : String).toList
     ("```json\n\x7b\"title\":\"T\"\x7d\n```" : String).toList rfl,
   rfl⟩

/-! ## Claim C3 -/

/-- Decomposition at the last closing brace: when a list contains one,
truncating just after the last of them splits the list into the truncated
part (ending in the brace) and a remainder without closing braces. -/
theorem truncAtLastClose_decomp (t : List Char) (h : t.contains '\x7d' = true) :
    ∃ post, t = truncAtLastClose t ++ post ∧ '\x7d' ∉ post ∧
      (truncAtLastClose t).getLast? = some '\x7d' := by
  refine ⟨(t.reverse.takeWhile (fun c => c != '\x7d')).reverse, ?_, ?_, ?_⟩
  · unfold truncAtLastClose
    conv_lhs => rw [← t.reverse_reverse,
      ← List.takeWhile_append_dropWhile (fun c => c != '\x7d') t.reverse]
    rw [List.reverse_append]
  · intro hmem
    rw [List.mem_reverse] at hmem
    have := List.mem_takeWhile_imp hmem
    simp at this
  · unfold truncAtLastClose
    rw [List.getLast?_reverse]
    match hd : t.reverse.dropWhile (fun c => c != '\x7d') with
    | [] =>
      exfalso
      rw [List.dropWhile_eq_nil_iff] at hd
      have hmem : '\x7d' ∈ t := by simpa using h
      have := hd _ (List.mem_reverse.mpr hmem)
      simp at this
    | x :: xs =>
      have hx : (fun c => c != '\x7d') x = false := by
        have := List.head?_dropWhile_not (fun c => c != '\x7d') t.reverse
        rw [hd] at this
        simpa using this
      have hx2 : x = '\x7d' := by simpa using hx
      simp [hx2]

/-- Characterization of the greedy brace regex: a match runs from the first
opening brace of the text (no opening brace precedes it) through the last
closing brace of the text (no closing brace follows it). -/
theorem braceMatch_spec : ∀ (l m : List Char), braceMatch l = some m →
    ∃ pre post, l = pre ++ m ++ post ∧ '\x7b' ∉ pre ∧ '\x7d' ∉ post ∧
      m.head? = some '\x7b' ∧ m.getLast? = some '\x7d' := by
  intro l
  induction l with
  | nil => intro m h; simp [braceMatch] at h
  | cons c t ih =>
    intro m h
    rw [braceMatch] at h
    by_cases hb : c = '\x7b'
    · rw [if_pos hb] at h
      by_cases hcont : t.contains '\x7d' = true
      · rw [if_pos hcont] at h
        injection h with h1
        obtain ⟨post, hdec, hpost, hlast⟩ := truncAtLastClose_decomp t hcont
        have hne : truncAtLastClose t ≠ [] := by
          intro hnil
          rw [hnil] at hlast
          simp at hlast
        obtain ⟨x, xs, hxs⟩ := List.exists_cons_of_ne_nil hne
        refine ⟨[], post, ?_, by simp, hpost, ?_, ?_⟩
        · rw [← h1]
          simp only [List.nil_append, List.cons_append, List.append_assoc]
          rw [← hdec]
        · rw [← h1, hb]
          rfl
        · rw [← h1, hxs, List.getLast?_cons_cons, ← hxs, hlast]
      · rw [if_neg hcont] at h
        obtain ⟨pre, post, hdec, hpre, hpost, hhead, hlast⟩ := ih m h
        exfalso
        have hmem : '\x7d' ∈ m := List.mem_of_mem_getLast? (by rw [hlast]; rfl)
        have : '\x7d' ∈ t := by
          rw [hdec]
          simp [hmem]
        exact hcont (by simpa using this)
    · rw [if_neg hb] at h
      obtain ⟨pre, post, hdec, hpre, hpost, hhead, hlast⟩ := ih m h
      refine ⟨c :: pre, post, by simp [hdec], ?_, hpost, hhead, hlast⟩
      intro hmem
      rcases List.mem_cons.mp hmem with hh | hh
      · exact hb hh.symm
      · exact hpre hh

/-- Counterexample to claim C3 as stated: for a text with two disjoint
brace-delimited objects, the candidate is NOT the first span — the greedy
regex grabs first-brace-through-last-brace, whose parse fails here, so the
handler yields the fallback instead of the first object. -/
theorem claim3_counterexample :
    findFenced ("\x7b\"a\":1\x7d x \x7b\"b\":2\x7d" : String).toList = none ∧
    parseJson "\x7b\"a\":1\x7d" = some (Json.obj [("a", Json.num "1")]) ∧
    extractCandidate "\x7b\"a\":1\x7d x \x7b\"b\":2\x7d" =
      "\x7b\"a\":1\x7d x \x7b\"b\":2\x7d" ∧
    routineData "\x7b\"a\":1\x7d x \x7b\"b\":2\x7d" = fallbackRoutine ∧
    routineData "\x7b\"a\":1\x7d x \x7b\"b\":2\x7d" ≠
      Json.obj [("a", Json.num "1")] := by
  refine ⟨rfl, rfl, rfl, rfl, ?_⟩
  rw [show routineData "\x7b\"a\":1\x7d x \x7b\"b\":2\x7d" = fallbackRoutine from rfl]
  simp [fallbackRoutine]

/-- Claim C3 (amended): when the text has no fenced json block but does
contain a brace span, the candidate handed to `JSON.parse` is the greedy
match of `/\x7b[\s\S]*\x7d/`: the span from the first opening brace of the
text through the LAST closing brace of the text (not the first minimal
`\x7b...\x7d` span). -/
theorem claim3_greedy_span (text : String) (m : List Char)
    (hf : findFenced text.toList = none)
    (hb : braceMatch text.toList = some m) :
    extractCandidate text = m.asString ∧
    ∃ pre post, text.toList = pre ++ m ++ post ∧ '\x7b' ∉ pre ∧
      '\x7d' ∉ post ∧ m.head? = some '\x7b' ∧ m.getLast? = some '\x7d' := by
  constructor
  · unfold extractCandidate
    rw [hf, hb]
  · exact braceMatch_spec _ _ hb

/-- Witness for the amended C3 at the two-object text: the candidate is the
whole first-to-last-brace span. -/
theorem claim3_witness :
    findFenced ("\x7b\"a\":1\x7d x \x7b\"b\":2\x7d" : String).toList = none ∧
    braceMatch ("\x7b\"a\":1\x7d x \x7b\"b\":2\x7d" : String).toList =
      some ("\x7b\"a\":1\x7d x \x7b\"b\":2\x7d" : String).toList ∧
    extractCandidate "\x7b\"a\":1\x7d x \x7b\"b\":2\x7d" =
      (("\x7b\"a\":1\x7d x \x7b\"b\":2\x7d" : String).toList).asString :=
  ⟨rfl, rfl,
   (claim3_greedy_span "\x7b\"a\":1\x7d x \x7b\"b\":2\x7d"
     ("\x7b\"a\":1\x7d x \x7b\"b\":2\x7d" : String).toList rfl rfl).1⟩

/-! ## Round-trip infrastructure for claim C6

`saveRoutine` writes `JSON.stringify(routine)` and the mount hook reads it
back with `JSON.parse`; the following lemmas show that for every Routine
(per the data model) this parse inverts the serialization. -/

/-- The lowercase-hex printer inverts the hex-digit reader. -/
theorem hexVal_hexDigit : ∀ k < 16, hexVal (hexDigit k) = some k := by decide

/-- Reading a string body that starts at its closing quote. -/
theorem psb_quote (rest : List Char) :
    parseStringBody ('"' :: rest) = some ([], rest) := by
  rw [parseStringBody.eq_def]
  rfl

/-- One short escape at the head of a string body. -/
theorem psb_esc (e d : Char) (he : escChar e = some d) (hne : e ≠ 'u')
    (tail : List Char) :
    parseStringBody ('\\' :: e :: tail) =
      match parseStringBody tail with
      | some (cs, r) => some (d :: cs, r)
      | none => none := by
  rw [parseStringBody.eq_def]
  cases h : parseStringBody tail with
  | none => simp [hne, he, h]
  | some p => simp [hne, he, h]

/-- One `\uXXXX` escape at the head of a string body. -/
theorem psb_u (h1 h2 h3 h4 : Char) (v1 v2 v3 v4 : Nat)
    (e1 : hexVal h1 = some v1) (e2 : hexVal h2 = some v2)
    (e3 : hexVal h3 = some v3) (e4 : hexVal h4 = some v4)
    (tail : List Char) :
    parseStringBody ('\\' :: 'u' :: h1 :: h2 :: h3 :: h4 :: tail) =
      match parseStringBody tail with
      | some (cs, r) =>
        some (Char.ofNat (((v1 * 16 + v2) * 16 + v3) * 16 + v4) :: cs, r)
      | none => none := by
  rw [parseStringBody.eq_def]
  cases h : parseStringBody tail with
  | none => simp [e1, e2, e3, e4, h]
  | some p => simp [e1, e2, e3, e4, h]

/-- One literal character at the head of a string body. -/
theorem psb_lit (c : Char) (hq : c ≠ '"') (hbs : c ≠ '\\')
    (hc : ¬ c.toNat < 32) (tail : List Char) :
    parseStringBody (c :: tail) =
      match parseStringBody tail with
      | some (cs, r) => some (c :: cs, r)
      | none => none := by
  rw [parseStringBody.eq_def]
  cases h : parseStringBody tail with
  | none => simp [hq, hbs, hc, h]
  | some p => simp [hq, hbs, hc, h]

/-- The string-body reader inverts `JSON.stringify` escaping on every
character sequence. -/
theorem parseStringBody_escape : ∀ (l rest : List Char),
    parseStringBody (escapeList l ++ ('"' :: rest)) = some (l, rest) := by
  intro l
  induction l with
  | nil => intro rest; exact psb_quote rest
  | cons c t ih =>
    intro rest
    show parseStringBody ((escapeChar c ++ escapeList t) ++ ('"' :: rest)) = _
    rw [List.append_assoc]
    by_cases hq : c = '"'
    · subst hq
      rw [show escapeChar '"' = ['\\', '"'] from rfl]
      rw [show (['\\', '"'] : List Char) ++ (escapeList t ++ '"' :: rest) =
        '\\' :: '"' :: (escapeList t ++ '"' :: rest) from rfl]
      rw [psb_esc '"' '"' rfl (by decide), ih]
    · by_cases hbs : c = '\\'
      · subst hbs
        rw [show escapeChar '\\' = ['\\', '\\'] from rfl]
        rw [show (['\\', '\\'] : List Char) ++ (escapeList t ++ '"' :: rest) =
          '\\' :: '\\' :: (escapeList t ++ '"' :: rest) from rfl]
        rw [psb_esc '\\' '\\' rfl (by decide), ih]
      · by_cases h3 : c = '\x08'
        · subst h3
          rw [show escapeChar '\x08' = ['\\', 'b'] from rfl]
          rw [show (['\\', 'b'] : List Char) ++ (escapeList t ++ '"' :: rest) =
            '\\' :: 'b' :: (escapeList t ++ '"' :: rest) from rfl]
          rw [psb_esc 'b' '\x08' rfl (by decide), ih]
        · by_cases h4 : c = '\t'
          · subst h4
            rw [show escapeChar '\t' = ['\\', 't'] from rfl]
            rw [show (['\\', 't'] : List Char) ++ (escapeList t ++ '"' :: rest) =
              '\\' :: 't' :: (escapeList t ++ '"' :: rest) from rfl]
            rw [psb_esc 't' '\t' rfl (by decide), ih]
          · by_cases h5 : c = '\n'
            · subst h5
              rw [show escapeChar '\n' = ['\\', 'n'] from rfl]
              rw [show (['\\', 'n'] : List Char) ++ (escapeList t ++ '"' :: rest) =
                '\\' :: 'n' :: (escapeList t ++ '"' :: rest) from rfl]
              rw [psb_esc 'n' '\n' rfl (by decide), ih]
            · by_cases h6 : c = '\x0c'
              · subst h6
                rw [show escapeChar '\x0c' = ['\\', 'f'] from rfl]
                rw [show (['\\', 'f'] : List Char) ++ (escapeList t ++ '"' :: rest) =
                  '\\' :: 'f' :: (escapeList t ++ '"' :: rest) from rfl]
                rw [psb_esc 'f' '\x0c' rfl (by decide), ih]
              · by_cases h7 : c = '\r'
                · subst h7
                  rw [show escapeChar '\r' = ['\\', 'r'] from rfl]
                  rw [show (['\\', 'r'] : List Char) ++ (escapeList t ++ '"' :: rest) =
                    '\\' :: 'r' :: (escapeList t ++ '"' :: rest) from rfl]
                  rw [psb_esc 'r' '\r' rfl (by decide), ih]
                · by_cases h8 : c.toNat < 32
                  · have hesc : escapeChar c =
                        ['\\', 'u', '0', '0', hexDigit (c.toNat / 16),
                         hexDigit (c.toNat % 16)] := by
                      simp [escapeChar, hq, hbs, h3, h4, h5, h6, h7, h8]
                    rw [hesc]
                    rw [show (['\\', 'u', '0', '0', hexDigit (c.toNat / 16),
                        hexDigit (c.toNat % 16)] : List Char) ++
                        (escapeList t ++ '"' :: rest) =
                      '\\' :: 'u' :: '0' :: '0' :: hexDigit (c.toNat / 16) ::
                        hexDigit (c.toNat % 16) ::
                        (escapeList t ++ '"' :: rest) from rfl]
                    rw [psb_u '0' '0' (hexDigit (c.toNat / 16))
                      (hexDigit (c.toNat % 16)) 0 0 (c.toNat / 16) (c.toNat % 16)
                      rfl rfl (hexVal_hexDigit _ (by omega))
                      (hexVal_hexDigit _ (by omega)), ih]
                    have harith : ((0 * 16 + 0) * 16 + c.toNat / 16) * 16 +
                        c.toNat % 16 = c.toNat := by omega
                    rw [harith, Char.ofNat_toNat]
                  · have hesc : escapeChar c = [c] := by
                      simp [escapeChar, hq, hbs, h3, h4, h5, h6, h7, h8]
                    rw [hesc]
                    rw [show ([c] : List Char) ++ (escapeList t ++ '"' :: rest) =
                      c :: (escapeList t ++ '"' :: rest) from rfl]
                    rw [psb_lit c hq hbs h8, ih]

/-- Bounded facts about the decimal digit characters produced by
`natLexeme`, used to drive the parser through a numeral. -/
theorem digitChar_facts : ∀ d < 10,
    (Char.ofNat (48 + d)).isDigit = true ∧
    Char.ofNat (48 + d) ≠ '-' ∧
    jsonWs (Char.ofNat (48 + d)) = false ∧
    numChar (Char.ofNat (48 + d)) = true ∧
    Char.ofNat (48 + d) ≠ '"' ∧
    Char.ofNat (48 + d) ≠ '\x7b' ∧
    Char.ofNat (48 + d) ≠ '[' ∧
    Char.ofNat (48 + d) ≠ 'n' ∧
    Char.ofNat (48 + d) ≠ 't' ∧
    Char.ofNat (48 + d) ≠ 'f' ∧
    (Char.ofNat (48 + d) = '0' ↔ d = 0) := by decide

/-- The numeral printer ignores surplus fuel. -/
theorem natLexCore_fuel : ∀ (n f1 f2 : Nat), n + 1 ≤ f1 → n + 1 ≤ f2 →
    natLexCore f1 n = natLexCore f2 n := by
  intro n
  induction n using Nat.strong_induction_on with
  | _ n ih =>
    intro f1 f2 h1 h2
    obtain ⟨g1, rfl⟩ : ∃ g, f1 = g + 1 := ⟨f1 - 1, by omega⟩
    obtain ⟨g2, rfl⟩ : ∃ g, f2 = g + 1 := ⟨f2 - 1, by omega⟩
    by_cases hn : n < 10
    · simp only [natLexCore, if_pos hn]
    · simp only [natLexCore, if_neg hn]
      rw [ih (n / 10) (by omega) g1 g2 (by omega) (by omega)]

/-- Fuel-free unfolding of the numeral printer. -/
theorem natLexeme_unfold (n : Nat) : natLexeme n =
    if n < 10 then [Char.ofNat (48 + n)]
    else natLexeme (n / 10) ++ [Char.ofNat (48 + n % 10)] := by
  unfold natLexeme
  by_cases hn : n < 10
  · rw [if_pos hn]
    simp only [natLexCore, if_pos hn]
  · rw [if_neg hn]
    have h1 : natLexCore (n + 1) n =
        natLexCore n (n / 10) ++ [Char.ofNat (48 + n % 10)] := by
      simp only [natLexCore, if_neg hn]
    rw [h1, natLexCore_fuel (n / 10) n (n / 10 + 1) (by omega) (by omega)]

/-- Structure of a printed numeral: a digit head (zero only for the number
zero, which prints as exactly `"0"`) followed by digits. -/
theorem natLexeme_spec : ∀ n : Nat, ∃ d ds,
    natLexeme n = Char.ofNat (48 + d) :: ds ∧
    d < 10 ∧ (∀ c ∈ ds, ∃ e, e < 10 ∧ c = Char.ofNat (48 + e)) ∧
    (d = 0 → n = 0) ∧ (n = 0 → ds = []) := by
  intro n
  induction n using Nat.strong_induction_on with
  | _ n ih =>
    rw [natLexeme_unfold]
    by_cases hn : n < 10
    · rw [if_pos hn]
      exact ⟨n, [], rfl, hn, by simp, fun h => h, fun _ => rfl⟩
    · rw [if_neg hn]
      obtain ⟨d, ds, hl, hd, hds, hzero, _⟩ := ih (n / 10) (by omega)
      refine ⟨d, ds ++ [Char.ofNat (48 + n % 10)], by rw [hl]; rfl, hd, ?_, ?_, ?_⟩
      · intro c hc
        rcases List.mem_append.mp hc with hc | hc
        · exact hds c hc
        · rcases List.mem_singleton.mp hc with rfl
          exact ⟨n % 10, by omega, rfl⟩
      · intro h0
        have := hzero h0
        omega
      · intro h0
        omega

/-- Every character of a printed numeral is a decimal digit. -/
theorem natLexeme_all_digits (n : Nat) :
    ∀ c ∈ natLexeme n, ∃ e, e < 10 ∧ c = Char.ofNat (48 + e) := by
  obtain ⟨d, ds, hl, hd, hds, _, _⟩ := natLexeme_spec n
  rw [hl]
  intro c hc
  rcases List.mem_cons.mp hc with rfl | hc
  · exact ⟨d, hd, rfl⟩
  · exact hds c hc

/-- A printed numeral satisfies the JSON number grammar. -/
theorem validNum_natLexeme (n : Nat) : validNum (natLexeme n) = true := by
  obtain ⟨d, ds, hl, hd, hds, hzero, hnil⟩ := natLexeme_spec n
  rw [hl]
  by_cases hd0 : d = 0
  · subst hd0
    rw [hnil (hzero rfl)]
    rfl
  · have hnotminus : Char.ofNat (48 + d) ≠ '-' := (digitChar_facts d hd).2.1
    have hcond : ¬ ((Char.ofNat (48 + d) :: ds).head? = some '-') := by
      simp [hnotminus]
    have hne0 : Char.ofNat (48 + d) ≠ '0' := by
      intro hcontr
      exact hd0 ((digitChar_facts d hd).2.2.2.2.2.2.2.2.2.2.mp hcontr)
    have hdig : (Char.ofNat (48 + d)).isDigit = true := (digitChar_facts d hd).1
    have hdrop : ds.dropWhile Char.isDigit = [] := by
      rw [List.dropWhile_eq_nil_iff]
      intro x hx
      obtain ⟨e, he, rfl⟩ := hds x hx
      exact (digitChar_facts e he).1
    have hni : numIntRest (Char.ofNat (48 + d) :: ds) = some [] := by
      simp only [numIntRest, if_neg hne0, if_pos hdig, hdrop]
    unfold validNum
    rw [if_neg hcond, hni]
    rfl

/-! ## Claim C1 -/

/-- Counterexample to claim C1 as stated: a text containing no fenced json
block and no brace span need not produce the fallback.  The handler then
parses the WHOLE text, and when that text is itself valid JSON — here
`42` — the parsed value is returned with HTTP 200 instead of the fallback
Routine. -/
theorem claim1_counterexample :
    findFenced ("42" : String).toList = none ∧
    braceMatch ("42" : String).toList = none ∧
    handler (some "key") "p" none
        (FetchResult.response ⟨true, 200, "OK", some "42"⟩) =
      { status := 200, body := Json.obj [("routine", Json.num "42")] } ∧
    Json.num "42" ≠ fallbackRoutine := by
  refine ⟨rfl, rfl, rfl, ?_⟩
  simp [fallbackRoutine]

/-- Claim C1 (amended): whenever extraction or parsing of the selected
candidate fails, the handler does not propagate the error and returns HTTP
200 whose routine is exactly the fixed fallback Routine; when no fenced
json block and no brace span is found, the candidate is the WHOLE response
text, so in that case the fallback is returned exactly when the whole text
is not valid JSON. -/
theorem claim1_parse_failure_fallback (key text p : String)
    (img : Option String) (resp : UpstreamResponse)
    (hkey : key.isEmpty = false) (hok : resp.ok = true)
    (hcontent : resp.content = some text) (hne : text.isEmpty = false)
    (hparse : parseJson (extractCandidate text) = none) :
    handler (some key) p img (FetchResult.response resp) =
      { status := 200, body := Json.obj [("routine", fallbackRoutine)] } ∧
    (findFenced text.toList = none → braceMatch text.toList = none →
      extractCandidate text = text) := by
  constructor
  · simp [handler, strTruthy, hkey, hok, hcontent, hne, routineData, hparse]
  · intro hf hb
    unfold extractCandidate
    rw [hf, hb]

/-- Witness for the amended C1: a plain-prose reply (no fenced block, no
braces, not valid JSON) yields 200 with the fallback. -/
theorem claim1_witness :
    ("key" : String).isEmpty = false ∧
    parseJson (extractCandidate "plain prose reply") = none ∧
    handler (some "key") "p" none
        (FetchResult.response ⟨true, 200, "OK", some "plain prose reply"⟩) =
      { status := 200, body := Json.obj [("routine", fallbackRoutine)] } :=
  ⟨rfl, rfl,
   (claim1_parse_failure_fallback "key" "plain prose reply" "p" none
     ⟨true, 200, "OK", some "plain prose reply"⟩ rfl rfl rfl rfl rfl).1⟩

/-! ## Claim C5 -/

/-- Counterexample to claim C5 as stated: the handler performs no schema
validation, so a 200 response can carry a routine value that does not
conform to the Routine data model — here an object with one unrelated
field and no title, description or steps. -/
theorem claim5_counterexample :
    handler (some "k") "p" none
        (FetchResult.response ⟨true, 200, "OK", some "\x7b\"x\":1\x7d"⟩) =
      { status := 200,
        body := Json.obj [("routine", Json.obj [("x", Json.num "1")])] } ∧
    isRoutineJson (Json.obj [("x", Json.num "1")]) = false :=
  ⟨rfl, rfl⟩

/-- Claim C5 (amended): on every 200 response the routine value is either
the JSON value parsed from the extracted candidate — passed through
unvalidated, so of arbitrary shape — or, when that parse fails, the fixed
fallback Routine, which does conform to the Routine data model. -/
theorem claim5_routine_shape (apiKey : Option String) (p : String)
    (img : Option String) (fetched : FetchResult) (r : Json)
    (h : handler apiKey p img fetched =
      { status := 200, body := Json.obj [("routine", r)] }) :
    ∃ text : String,
      (∃ resp : UpstreamResponse,
        fetched = FetchResult.response resp ∧ resp.content = some text) ∧
      ((∃ v, parseJson (extractCandidate text) = some v ∧ r = v) ∨
       (parseJson (extractCandidate text) = none ∧ r = fallbackRoutine ∧
        isRoutineJson r = true)) := by
  match hkeyv : strTruthy apiKey with
  | false =>
    simp [handler, hkeyv, err500] at h
  | true =>
    match fetched with
    | FetchResult.netError msg =>
      simp [handler, hkeyv, err500] at h
    | FetchResult.response resp =>
      match hok : resp.ok with
      | false => simp [handler, hkeyv, hok, err500] at h
      | true =>
        match hc : resp.content with
        | none => simp [handler, hkeyv, hok, hc, err500] at h
        | some text =>
          match htext : text.isEmpty with
          | true => simp [handler, hkeyv, hok, hc, htext, err500] at h
          | false =>
            simp only [handler, hkeyv, hok, hc, htext, Bool.not_true,
              Bool.false_eq_true, if_false, HttpResponse.mk.injEq,
              Json.obj.injEq, List.cons.injEq, Prod.mk.injEq, true_and,
              and_true] at h
            refine ⟨text, ⟨resp, rfl, hc⟩, ?_⟩
            match hp : parseJson (extractCandidate text) with
            | some v =>
              left
              refine ⟨v, rfl, ?_⟩
              rw [← h]
              simp [routineData, hp]
            | none =>
              right
              have hr : r = fallbackRoutine := by
                rw [← h]
                simp [routineData, hp]
              exact ⟨rfl, hr, by rw [hr]; rfl⟩

/-- Witness for the amended C5 at a concrete unvalidated passthrough. -/
theorem claim5_witness :
    handler (some "k") "p" none
        (FetchResult.response ⟨true, 200, "OK", some "\x7b\"z\":9\x7d"⟩) =
      { status := 200,
        body := Json.obj [("routine", Json.obj [("z", Json.num "9")])] } ∧
    ∃ text : String,
      (∃ resp : UpstreamResponse,
        FetchResult.response (⟨true, 200, "OK", some "\x7b\"z\":9\x7d"⟩ :
            UpstreamResponse) = FetchResult.response resp ∧
          resp.content = some text) ∧
      ((∃ v, parseJson (extractCandidate text) = some v ∧
          Json.obj [("z", Json.num "9")] = v) ∨
       (parseJson (extractCandidate text) = none ∧
        Json.obj [("z", Json.num "9")] = fallbackRoutine ∧
        isRoutineJson (Json.obj [("z", Json.num "9")]) = true)) :=
  ⟨rfl, claim5_routine_shape (some "k") "p" none
    (FetchResult.response ⟨true, 200, "OK", some "\x7b\"z\":9\x7d"⟩)
    (Json.obj [("z", Json.num "9")]) rfl⟩

theorem skipWs_cons (c : Char) (t : List Char) (h : jsonWs c = false) :
    skipWs (c :: t) = c :: t := by
  simp [skipWs, List.dropWhile_cons, h]

theorem parseCore_str (s : String) (fuel : Nat) (rest : List Char) :
    parseCore (fuel + 1) PMode.val (strLit s ++ rest) =
      some (PRes.val (Json.str s), rest) := by
  have h0 : strLit s ++ rest = '"' :: (escapeList s.toList ++ ('"' :: rest)) := by
    simp [strLit]
  rw [h0, parseCore.eq_2, skipWs_cons _ _ (by decide)]
  simp only [parseStringBody_escape]
  rfl

theorem parseCore_natLex (n : Nat) (fuel : Nat) (rest : List Char)
    (hrest : rest = [] ∨ ∃ c t, rest = c :: t ∧ numChar c = false) :
    parseCore (fuel + 1) PMode.val (natLexeme n ++ rest) =
      some (PRes.val (Json.num (natLexeme n).asString), rest) := by
  obtain ⟨d, ds, hl, hd, hds, hz1, hz2⟩ := natLexeme_spec n
  have f := digitChar_facts d hd
  have hall : ∀ c ∈ natLexeme n, numChar c = true := by
    intro c hc
    obtain ⟨e, he, rfl⟩ := natLexeme_all_digits n c hc
    exact (digitChar_facts e he).2.2.2.1
  have htd := takeDrop_append_all (natLexeme n) rest hall hrest
  have hcons : natLexeme n ++ rest = Char.ofNat (48 + d) :: (ds ++ rest) := by
    rw [hl]
    rfl
  have htake : (Char.ofNat (48 + d) :: (ds ++ rest)).takeWhile numChar =
      natLexeme n := by
    rw [← hcons]
    exact htd.1
  have hdrop : (Char.ofNat (48 + d) :: (ds ++ rest)).dropWhile numChar =
      rest := by
    rw [← hcons]
    exact htd.2
  have hvalid : validNum (Char.ofNat (48 + d) :: ds) = true := by
    rw [← hl]
    exact validNum_natLexeme n
  rw [hcons, parseCore.eq_2, skipWs_cons _ _ f.2.2.1]
  simp [f.2.2.2.2.1, f.2.2.2.2.2.1, f.2.2.2.2.2.2.1, f.2.2.2.2.2.2.2.1,
        f.2.2.2.2.2.2.2.2.1, f.2.2.2.2.2.2.2.2.2.1, htake, hdrop, hvalid, hl]



theorem stringifyFields_cons_eq (k : String) (v : Json)
    (fs : List (String × Json)) :
    stringifyFields ((k, v) :: fs) = ',' :: fieldsBody ((k, v) :: fs) := by
  simp [stringifyFields, fieldsBody]

theorem stringifyElems_cons_eq (x : Json) (xs : List Json) :
    stringifyElems (x :: xs) = ',' :: elemsBody (x :: xs) := by
  simp [stringifyElems, elemsBody]

theorem stringifyVal_obj_cons (k : String) (v : Json)
    (fs : List (String × Json)) :
    stringifyVal (Json.obj ((k, v) :: fs)) =
      '\x7b' :: (fieldsBody ((k, v) :: fs) ++ ['\x7d']) := by
  simp [stringifyVal, fieldsBody, List.append_assoc]

theorem stringifyVal_arr_cons (x : Json) (xs : List Json) :
    stringifyVal (Json.arr (x :: xs)) =
      '[' :: (elemsBody (x :: xs) ++ [']']) := by
  simp [stringifyVal, elemsBody, List.append_assoc]

theorem parsesFrom_str (s : String) : ParsesFrom (Json.str s) := by
  intro fuel rest hfuel hrest
  have hsv : stringifyVal (Json.str s) = strLit s := by
    simp [stringifyVal]
  have hpos : 0 < (stringifyVal (Json.str s)).length := by
    simp [hsv, strLit]
  obtain ⟨g, rfl⟩ : ∃ g, fuel = g + 1 := ⟨fuel - 1, by omega⟩
  rw [hsv, parseCore_str]

theorem parsesFrom_natLex (n : Nat) :
    ParsesFrom (Json.num (natLexeme n).asString) := by
  intro fuel rest hfuel hrest
  have hsv : stringifyVal (Json.num (natLexeme n).asString) = natLexeme n := by
    simp only [stringifyVal]
    rfl
  have hne : natLexeme n ≠ [] := by
    obtain ⟨d, ds, hl, _⟩ := natLexeme_spec n
    rw [hl]
    exact List.cons_ne_nil _ _
  have hpos : 0 < (stringifyVal (Json.num (natLexeme n).asString)).length := by
    rw [hsv]
    exact List.length_pos.mpr hne
  obtain ⟨g, rfl⟩ : ∃ g, fuel = g + 1 := ⟨fuel - 1, by omega⟩
  rw [hsv, parseCore_natLex n g rest hrest]



theorem parseCore_fieldsBody : ∀ (fs : List (String × Json)), fs ≠ [] →
    (∀ p ∈ fs, ParsesFrom p.2) → ∀ (fuel : Nat) (rest : List Char),
    (fieldsBody fs).length + 1 ≤ fuel →
    parseCore fuel PMode.fields (fieldsBody fs ++ ('\x7d' :: rest)) =
      some (PRes.fields fs, rest) := by
  intro fs
  induction fs with
  | nil => intro h; exact absurd rfl h
  | cons f tail ih =>
    obtain ⟨k, v⟩ := f
    intro _ hvals fuel rest hfuel
    obtain ⟨g, rfl⟩ : ∃ g, fuel = g + 1 := ⟨fuel - 1, by omega⟩
    have hlen : (fieldsBody ((k, v) :: tail)).length =
        (escapeList k.toList).length + 2 + 1 + (stringifyVal v).length +
          (stringifyFields tail).length := by
      simp [fieldsBody, strLit]
      omega
    have hv2 : ParsesFrom v := hvals (k, v) (List.mem_cons_self _ _)
    cases tail with
    | nil =>
      have harr : fieldsBody [(k, v)] ++ ('\x7d' :: rest) =
          '"' :: (escapeList k.toList ++
            ('"' :: (':' :: (stringifyVal v ++ ('\x7d' :: rest))))) := by
        simp [fieldsBody, strLit, stringifyFields, List.append_assoc]
      have hval : parseCore g PMode.val (stringifyVal v ++ ('\x7d' :: rest)) =
          some (PRes.val v, '\x7d' :: rest) :=
        hv2 g ('\x7d' :: rest)
          (by simp [stringifyFields] at hlen; omega)
          (Or.inr ⟨'\x7d', rest, rfl, by decide⟩)
      rw [harr, parseCore.eq_4, skipWs_cons _ _ (by decide)]
      simp [parseStringBody_escape, hval, skipWs_cons, jsonWs]
      rfl
    | cons f2 ts =>
      have hsf : stringifyFields (f2 :: ts) = ',' :: fieldsBody (f2 :: ts) := by
        obtain ⟨k2, v2⟩ := f2
        exact stringifyFields_cons_eq k2 v2 ts
      have harr : fieldsBody ((k, v) :: f2 :: ts) ++ ('\x7d' :: rest) =
          '"' :: (escapeList k.toList ++
            ('"' :: (':' :: (stringifyVal v ++
              (',' :: (fieldsBody (f2 :: ts) ++ ('\x7d' :: rest))))))) := by
        simp [fieldsBody, strLit, hsf, List.append_assoc]
      have hval : parseCore g PMode.val (stringifyVal v ++
          (',' :: (fieldsBody (f2 :: ts) ++ ('\x7d' :: rest)))) =
          some (PRes.val v, ',' :: (fieldsBody (f2 :: ts) ++ ('\x7d' :: rest))) :=
        hv2 g (',' :: (fieldsBody (f2 :: ts) ++ ('\x7d' :: rest)))
          (by rw [hsf] at hlen; simp at hlen; omega)
          (Or.inr ⟨',', _, rfl, by decide⟩)
      have hih : parseCore g PMode.fields
          (fieldsBody (f2 :: ts) ++ ('\x7d' :: rest)) =
          some (PRes.fields (f2 :: ts), rest) :=
        ih (List.cons_ne_nil _ _)
          (fun p hp => hvals p (List.mem_cons_of_mem _ hp)) g rest
          (by rw [hsf] at hlen; simp at hlen; omega)
      rw [harr, parseCore.eq_4, skipWs_cons _ _ (by decide)]
      simp [parseStringBody_escape, hval, hih, skipWs_cons, jsonWs]
      rfl



theorem parseCore_elemsBody : ∀ (xs : List Json), xs ≠ [] →
    (∀ x ∈ xs, ParsesFrom x) → ∀ (fuel : Nat) (rest : List Char),
    (elemsBody xs).length + 1 ≤ fuel →
    parseCore fuel PMode.elems (elemsBody xs ++ (']' :: rest)) =
      some (PRes.elems xs, rest) := by
  intro xs
  induction xs with
  | nil => intro h; exact absurd rfl h
  | cons x tail ih =>
    intro _ hvals fuel rest hfuel
    obtain ⟨g, rfl⟩ : ∃ g, fuel = g + 1 := ⟨fuel - 1, by omega⟩
    have hlen : (elemsBody (x :: tail)).length =
        (stringifyVal x).length + (stringifyElems tail).length := by
      simp [elemsBody]
    have hv2 : ParsesFrom x := hvals x (List.mem_cons_self _ _)
    cases tail with
    | nil =>
      have harr : elemsBody [x] ++ (']' :: rest) =
          stringifyVal x ++ (']' :: rest) := by
        simp [elemsBody, stringifyElems]
      have hval : parseCore g PMode.val (stringifyVal x ++ (']' :: rest)) =
          some (PRes.val x, ']' :: rest) :=
        hv2 g (']' :: rest)
          (by simp [stringifyElems] at hlen; omega)
          (Or.inr ⟨']', rest, rfl, by decide⟩)
      rw [harr, parseCore.eq_3]
      simp [hval, skipWs_cons, jsonWs]
    | cons x2 ts =>
      have hse : stringifyElems (x2 :: ts) = ',' :: elemsBody (x2 :: ts) :=
        stringifyElems_cons_eq x2 ts
      have harr : elemsBody (x :: x2 :: ts) ++ (']' :: rest) =
          stringifyVal x ++ (',' :: (elemsBody (x2 :: ts) ++ (']' :: rest))) := by
        simp [elemsBody, hse, List.append_assoc]
      have hval : parseCore g PMode.val (stringifyVal x ++
          (',' :: (elemsBody (x2 :: ts) ++ (']' :: rest)))) =
          some (PRes.val x, ',' :: (elemsBody (x2 :: ts) ++ (']' :: rest))) :=
        hv2 g (',' :: (elemsBody (x2 :: ts) ++ (']' :: rest)))
          (by rw [hse] at hlen; simp at hlen; omega)
          (Or.inr ⟨',', _, rfl, by decide⟩)
      have hih : parseCore g PMode.elems
          (elemsBody (x2 :: ts) ++ (']' :: rest)) =
          some (PRes.elems (x2 :: ts), rest) :=
        ih (List.cons_ne_nil _ _)
          (fun y hy => hvals y (List.mem_cons_of_mem _ hy)) g rest
          (by rw [hse] at hlen; simp at hlen; omega)
      rw [harr, parseCore.eq_3]
      simp [hval, hih, skipWs_cons, jsonWs]

theorem parsesFrom_obj (fs : List (String × Json))
    (hvals : ∀ p ∈ fs, ParsesFrom p.2) : ParsesFrom (Json.obj fs) := by
  intro fuel rest hfuel hrest
  cases fs with
  | nil =>
    have hsv : stringifyVal (Json.obj []) = ['\x7b', '\x7d'] := by
      simp [stringifyVal]
    rw [hsv] at hfuel ⊢
    obtain ⟨g, rfl⟩ : ∃ g, fuel = g + 1 := ⟨fuel - 1, by simp at hfuel; omega⟩
    rw [show (['\x7b', '\x7d'] : List Char) ++ rest =
      '\x7b' :: ('\x7d' :: rest) from rfl]
    rw [parseCore.eq_2, skipWs_cons _ _ (by decide)]
    simp [skipWs_cons, jsonWs]
  | cons f tail =>
    obtain ⟨k, v⟩ := f
    have hsv := stringifyVal_obj_cons k v tail
    rw [hsv] at hfuel ⊢
    obtain ⟨g, rfl⟩ : ∃ g, fuel = g + 1 := ⟨fuel - 1, by simp at hfuel; omega⟩
    have hbody : (fieldsBody ((k, v) :: tail)).length + 1 ≤ g := by
      simp at hfuel
      omega
    have hfb : parseCore g PMode.fields
        (fieldsBody ((k, v) :: tail) ++ ('\x7d' :: rest)) =
        some (PRes.fields ((k, v) :: tail), rest) :=
      parseCore_fieldsBody ((k, v) :: tail) (List.cons_ne_nil _ _) hvals g rest hbody
    have harr : ('\x7b' :: (fieldsBody ((k, v) :: tail) ++ ['\x7d'])) ++ rest =
        '\x7b' :: (fieldsBody ((k, v) :: tail) ++ ('\x7d' :: rest)) := by
      simp [List.append_assoc]
    have hct : fieldsBody ((k, v) :: tail) ++ ('\x7d' :: rest) =
        '"' :: (escapeList k.toList ++
          ('"' :: (':' :: (stringifyVal v ++
            (stringifyFields tail ++ ('\x7d' :: rest)))))) := by
      simp [fieldsBody, strLit, List.append_assoc]
    rw [harr, parseCore.eq_2, skipWs_cons _ _ (by decide)]
    rw [hct] at hfb ⊢
    have hws2 : jsonWs '"' = false := rfl
    simp only [String.toList] at hfb ⊢
    simp [skipWs_cons, hws2, hfb]

theorem parsesFrom_arr (xs : List Json)
    (hvals : ∀ x ∈ xs, ParsesFrom x)
    (hheads : ∀ x ∈ xs, ∃ c t, stringifyVal x = c :: t ∧ jsonWs c = false ∧
      c ≠ ']') : ParsesFrom (Json.arr xs) := by
  intro fuel rest hfuel hrest
  cases xs with
  | nil =>
    have hsv : stringifyVal (Json.arr []) = ['[', ']'] := by
      simp [stringifyVal]
    rw [hsv] at hfuel ⊢
    obtain ⟨g, rfl⟩ : ∃ g, fuel = g + 1 := ⟨fuel - 1, by simp at hfuel; omega⟩
    rw [show (['[', ']'] : List Char) ++ rest = '[' :: (']' :: rest) from rfl]
    rw [parseCore.eq_2, skipWs_cons _ _ (by decide)]
    simp [skipWs_cons, jsonWs]
  | cons x tail =>
    have hsv := stringifyVal_arr_cons x tail
    rw [hsv] at hfuel ⊢
    obtain ⟨g, rfl⟩ : ∃ g, fuel = g + 1 := ⟨fuel - 1, by simp at hfuel; omega⟩
    have hbody : (elemsBody (x :: tail)).length + 1 ≤ g := by
      simp at hfuel
      omega
    have heb : parseCore g PMode.elems (elemsBody (x :: tail) ++ (']' :: rest)) =
        some (PRes.elems (x :: tail), rest) :=
      parseCore_elemsBody (x :: tail) (List.cons_ne_nil _ _) hvals g rest hbody
    have harr : ('[' :: (elemsBody (x :: tail) ++ [']'])) ++ rest =
        '[' :: (elemsBody (x :: tail) ++ (']' :: rest)) := by
      simp [List.append_assoc]
    obtain ⟨c, t, hx, hcws, hcne⟩ := hheads x (List.mem_cons_self _ _)
    have hct : elemsBody (x :: tail) ++ (']' :: rest) =
        c :: (t ++ (stringifyElems tail ++ (']' :: rest))) := by
      simp [elemsBody, hx, List.append_assoc]
    rw [harr, parseCore.eq_2, skipWs_cons _ _ (by decide)]
    rw [hct] at heb ⊢
    simp [skipWs_cons, hcws, hcne, heb]



theorem stepToJson_cons (st : RStep) : RStep.toJson st =
    Json.obj (("step", Json.num (natLexeme st.step).asString) ::
      (("action", Json.str st.action) ::
        ((match st.duration with
          | some d => [("duration", Json.str d)]
          | none => []) ++
         (match st.notes with
          | some n2 => [("notes", Json.str n2)]
          | none => [])))) := rfl

theorem parsesFrom_step (st : RStep) : ParsesFrom (RStep.toJson st) := by
  obtain ⟨sn, sa, sd, sno⟩ := st
  apply parsesFrom_obj
  intro p hp
  cases sd with
  | none =>
    cases sno with
    | none =>
      simp [RStep.toJson] at hp
      rcases hp with rfl | rfl
      · exact parsesFrom_natLex sn
      · exact parsesFrom_str sa
    | some n2 =>
      simp [RStep.toJson] at hp
      rcases hp with rfl | rfl | rfl
      · exact parsesFrom_natLex sn
      · exact parsesFrom_str sa
      · exact parsesFrom_str n2
  | some d =>
    cases sno with
    | none =>
      simp [RStep.toJson] at hp
      rcases hp with rfl | rfl | rfl
      · exact parsesFrom_natLex sn
      · exact parsesFrom_str sa
      · exact parsesFrom_str d
    | some n2 =>
      simp [RStep.toJson] at hp
      rcases hp with rfl | rfl | rfl | rfl
      · exact parsesFrom_natLex sn
      · exact parsesFrom_str sa
      · exact parsesFrom_str d
      · exact parsesFrom_str n2

theorem step_head (st : RStep) : ∃ c t,
    stringifyVal (RStep.toJson st) = c :: t ∧ jsonWs c = false ∧ c ≠ ']' := by
  rw [stepToJson_cons, stringifyVal_obj_cons]
  exact ⟨'\x7b', _, rfl, by decide, by decide⟩

theorem parsesFrom_routine (r : Routine) : ParsesFrom (Routine.toJson r) := by
  apply parsesFrom_obj
  intro p hp
  simp [Routine.toJson] at hp
  rcases hp with rfl | rfl | rfl
  · exact parsesFrom_str r.title
  · exact parsesFrom_str r.description
  · apply parsesFrom_arr
    · intro x hx
      simp [List.mem_map] at hx
      obtain ⟨st, _, rfl⟩ := hx
      exact parsesFrom_step st
    · intro x hx
      simp [List.mem_map] at hx
      obtain ⟨st, _, rfl⟩ := hx
      exact step_head st

theorem parseJson_stringify_routine (r : Routine) :
    parseJson (stringifyCompact (Routine.toJson r)) = some (Routine.toJson r) := by
  have hp := parsesFrom_routine r
    (2 * (stringifyVal (Routine.toJson r)).asString.length + 2) []
    (by
      have h : (stringifyVal (Routine.toJson r)).asString.length =
          (stringifyVal (Routine.toJson r)).length := rfl
      omega)
    (Or.inl rfl)
  rw [List.append_nil] at hp
  unfold parseJson parseVal stringifyCompact
  rw [show ((stringifyVal (Routine.toJson r)).asString).toList =
      stringifyVal (Routine.toJson r) from rfl]
  rw [hp]
  rfl



theorem stringifyCompact_routine_ne_empty (r : Routine) :
    (stringifyCompact (Routine.toJson r)).isEmpty = false := by
  have hshape : stringifyVal (Routine.toJson r) =
      '\x7b' :: (fieldsBody (("title", Json.str r.title) ::
        (("description", Json.str r.description) ::
          [("steps", Json.arr (r.steps.map RStep.toJson))])) ++ ['\x7d']) := by
    rw [show Routine.toJson r = Json.obj (("title", Json.str r.title) ::
      (("description", Json.str r.description) ::
        [("steps", Json.arr (r.steps.map RStep.toJson))])) from rfl]
    rw [stringifyVal_obj_cons]
  unfold stringifyCompact
  rw [hshape]
  rfl

/-- Claim C6: saving the displayed Routine writes its serialization to the
durable slot, and loading at the next startup restores a field-for-field
identical Routine, populating both the structured view and the raw-text
mirror from it. -/
theorem claim6_save_load_roundtrip (r : Routine) (st st2 : EditorState)
    (hedit : st.isEditing = false)
    (hcur : st.generatedRoutine = some (Routine.toJson r)) :
    (saveRoutine st).2 = some (stringifyCompact (Routine.toJson r)) ∧
    (loadOnMount (saveRoutine st).2 st2).generatedRoutine =
      some (Routine.toJson r) ∧
    (loadOnMount (saveRoutine st).2 st2).editableRoutine =
      stringifyPretty (Routine.toJson r) := by
  have hsave : (saveRoutine st).2 =
      some (stringifyCompact (Routine.toJson r)) := by
    simp [saveRoutine, hedit, hcur]
  have hload : loadOnMount (saveRoutine st).2 st2 =
      { st2 with generatedRoutine := some (Routine.toJson r),
                 editableRoutine := stringifyPretty (Routine.toJson r) } := by
    rw [hsave]
    simp [loadOnMount, stringifyCompact_routine_ne_empty,
      parseJson_stringify_routine]
  exact ⟨hsave, by rw [hload], by rw [hload]⟩

/-- Witness for C6 at a concrete one-step Routine. -/
theorem claim6_witness :
    (⟨"", none,
      some (Routine.toJson ⟨"T", "D", [⟨1, "Stretch", some "5 min", none⟩]⟩),
      "", false, false, []⟩ : EditorState).isEditing = false ∧
    (loadOnMount
      (saveRoutine ⟨"", none,
        some (Routine.toJson ⟨"T", "D", [⟨1, "Stretch", some "5 min", none⟩]⟩),
        "", false, false, []⟩).2
      ⟨"", none, none, "", false, false, []⟩).generatedRoutine =
      some (Routine.toJson ⟨"T", "D", [⟨1, "Stretch", some "5 min", none⟩]⟩) :=
  ⟨rfl,
   (claim6_save_load_roundtrip ⟨"T", "D", [⟨1, "Stretch", some "5 min", none⟩]⟩
     ⟨"", none,
       some (Routine.toJson ⟨"T", "D", [⟨1, "Stretch", some "5 min", none⟩]⟩),
       "", false, false, []⟩
     ⟨"", none, none, "", false, false, []⟩ rfl rfl).2.1⟩

end ARB
